import Mathlib

/-!
Verification of the simulation core of the `tetris-rs` repository
(`src/engine/mod.rs`, `src/engine/piece.rs`) against its design
specification. The Rust code is shallowly embedded: `isize` becomes `Int`,
`usize` becomes `Nat`, `cgmath::Vector2<isize>` becomes `Int × Int`,
`cgmath::Point2<usize>` becomes `Nat × Nat`, the fixed-size cell array of
`Matrix` becomes a `List (Option Color)` of length `WIDTH * HEIGHT`,
fallible operations (Rust panics / `Result`) become `Option`-returning
functions, and `cgmath`'s `Vector2::cast::<usize>` (which returns `None` on
any negative component) becomes an explicit sign check.
-/

namespace TetrisRs

/-- The alias `type Offset = cgmath::Vector2<isize>` from `engine/mod.rs`. -/
abbrev Offset := Int × Int

/-- The alias `type Coordinate = cgmath::Point2<usize>` from `engine/mod.rs`. -/
abbrev Coordinate := Nat × Nat

/-- The seven colors of `enum Color` in `engine/mod.rs`. -/
inductive Color where
  | Yellow | Cyan | Purple | Orange | Blue | Green | Red
  deriving DecidableEq, Repr

/-- Source `enum Kind` from `engine/piece.rs`: the seven piece shapes. -/
inductive Kind where
  | O | I | T | L | J | S | Z
  deriving DecidableEq, Repr

/-- Source `enum Rotation` from `engine/piece.rs`: the four orientation states. -/
inductive Rotation where
  | N | S | E | W
  deriving DecidableEq, Repr

/-- Source `Kind::ALL` from `engine/piece.rs`. -/
def Kind.ALL : List Kind :=
  [Kind.O, Kind.I, Kind.T, Kind.L, Kind.J, Kind.S, Kind.Z]

/-- Source `Kind::cells` from `engine/piece.rs`: the canonical 4-cell layout of
each kind, as local offsets. -/
def Kind.cells : Kind → List Offset
  | Kind.O => [(1, 1), (1, 2), (2, 2), (2, 1)]
  | Kind.I => [(0, 2), (1, 2), (2, 2), (3, 2)]
  | Kind.T => [(0, 1), (1, 1), (1, 2), (2, 1)]
  | Kind.L => [(0, 1), (1, 1), (2, 1), (2, 2)]
  | Kind.J => [(0, 1), (0, 2), (1, 1), (2, 1)]
  | Kind.S => [(0, 1), (1, 1), (1, 2), (2, 2)]
  | Kind.Z => [(0, 2), (1, 2), (1, 1), (2, 1)]

/-- Source `Kind::grid_size` from `engine/piece.rs`: 4 for the I piece, 3
otherwise. -/
def Kind.grid_size : Kind → Int
  | Kind.I => 4
  | _ => 3

/-- Source `Kind::color` from `engine/piece.rs`. -/
def Kind.color : Kind → Color
  | Kind.O => Color.Yellow
  | Kind.I => Color.Cyan
  | Kind.T => Color.Purple
  | Kind.L => Color.Orange
  | Kind.J => Color.Blue
  | Kind.S => Color.Green
  | Kind.Z => Color.Red

/-- Source `Rotation::intrinsic_offset` from `engine/piece.rs`. -/
def Rotation.intrinsic_offset : Rotation → Offset
  | Rotation.N => (0, 0)
  | Rotation.S => (1, 1)
  | Rotation.E => (0, 1)
  | Rotation.W => (1, 0)

/-- Source `impl Mul<Rotation> for Offset` from `engine/piece.rs`: rotate an
offset about the origin according to the rotation state. -/
def mulRot (o : Offset) : Rotation → Offset
  | Rotation.N => o
  | Rotation.S => (-o.1, -o.2)
  | Rotation.E => (o.2, -o.1)
  | Rotation.W => (-o.2, o.1)

/-- The `cgmath` scalar multiplication `Vector2<isize> * isize`, used in
`Piece::rotator` as `intrinsic_offset() * (grid_size() - 1)`. -/
def mulScalar (o : Offset) (k : Int) : Offset := (o.1 * k, o.2 * k)

/-- Source `struct Piece` from `engine/piece.rs`. -/
structure Piece where
  kind : Kind
  position : Offset
  rotation : Rotation
  deriving DecidableEq, Repr

/-- Source `Piece::rotator` from `engine/piece.rs`: identity for the O kind;
otherwise rotate about the origin and add the pivot-correction offset
`intrinsic_offset * (grid_size - 1)`. -/
def Piece.rotator (p : Piece) (cell : Offset) : Offset :=
  match p.kind with
  | Kind.O => cell
  | _ => mulRot cell p.rotation + mulScalar p.rotation.intrinsic_offset (p.kind.grid_size - 1)

/-- Source `Piece::positioner` from `engine/piece.rs`: add the piece's world
position. -/
def Piece.positioner (p : Piece) (cell : Offset) : Offset :=
  cell + p.position

/-- Source `Piece::moved_by` from `engine/piece.rs`. -/
def Piece.moved_by (p : Piece) (offset : Offset) : Piece :=
  { p with position := p.position + offset }

/-- The world-space offsets computed inside `Piece::cells`:
`self.kind.cells().map(self.rotator()).map(self.positioner())`. -/
def Piece.worldOffsets (p : Piece) : List Offset :=
  (p.kind.cells.map p.rotator).map p.positioner

/-- Source `Matrix::WIDTH` from `engine/mod.rs`. -/
def WIDTH : Nat := 10

/-- Source `Matrix::HEIGHT` from `engine/mod.rs`. -/
def HEIGHT : Nat := 20

/-- Source `Matrix::valid_coord` from `engine/mod.rs`: only the x bound is
checked. -/
def valid_coord (c : Coordinate) : Bool := c.1 < WIDTH

/-- One step of the loop body of `Piece::cells`:
`offset.cast::<usize>()?` (`cgmath`'s cast from `isize` to `usize` fails on
a negative component), then the `Matrix::valid_coord` check. -/
def castCell (o : Offset) : Option Coordinate :=
  if 0 ≤ o.1 ∧ 0 ≤ o.2 then
    let c : Coordinate := (o.1.toNat, o.2.toNat)
    if valid_coord c then some c else none
  else none

/-- The loop of `Piece::cells`: convert every world offset, failing the
whole conversion as soon as one offset fails. -/
def castAll : List Offset → Option (List Coordinate)
  | [] => some []
  | o :: os =>
    match castCell o with
    | none => none
    | some c => (castAll os).map (fun cs => c :: cs)

/-- Source `Piece::cells` from `engine/piece.rs`: the four world coordinates the
piece occupies, or `none` when a world offset has a negative component or
fails the `valid_coord` check. -/
def Piece.cells (p : Piece) : Option (List Coordinate) :=
  castAll p.worldOffsets

/-- Modelled from the spec: the rotation rule stated in words in §4.2
("N is identity; S negates both axes; E maps (x,y)→(y,−x); W maps
(x,y)→(−y,x)"), used to compare against the source's `Mul<Rotation>`
implementation. -/
def specRotate (r : Rotation) (o : Offset) : Offset :=
  match r with
  | Rotation.N => o
  | Rotation.S => (-o.1, -o.2)
  | Rotation.E => (o.2, -o.1)
  | Rotation.W => (-o.2, o.1)

/-- Source `Matrix::SIZE` from `engine/mod.rs`. -/
def SIZE : Nat := WIDTH * HEIGHT

/-- The cell array `struct Matrix([Option<Color>; Self::SIZE])` from `engine/mod.rs`,
embedded as a list of cells in the array's order. -/
abbrev Mat := List (Option Color)

/-- Source `Matrix::blank` from `engine/mod.rs`. -/
def Mat.blank : Mat := List.replicate SIZE none

/-- Source `Matrix::on_matrix` from `engine/mod.rs`: both bounds are checked. -/
def on_matrix (c : Coordinate) : Bool := c.1 < WIDTH && c.2 < HEIGHT

/-- Source `Matrix::indexing` from `engine/mod.rs`: row-major index
`y * WIDTH + x`. -/
def indexing (c : Coordinate) : Nat := c.2 * WIDTH + c.1

/-- Source `Index<Coordinate> for Matrix` from `engine/mod.rs`: read the cell at
a coordinate (only ever reached on in-range indices in the source). -/
def Mat.cell_at (m : Mat) (c : Coordinate) : Option Color :=
  m.getD (indexing c) none

/-- Source `Matrix::is_placeable` from `engine/mod.rs`: the projected cells all
exist, are on the matrix, and are empty. -/
def Mat.is_placeable (m : Mat) (p : Piece) : Bool :=
  match p.cells with
  | some cells => cells.all (fun c => on_matrix c && (m.cell_at c).isNone)
  | none => false

/-- Source `Matrix::is_clipping` from `engine/mod.rs`: some projected cell is off
the matrix or occupied, or the cells cannot be projected at all. -/
def Mat.is_clipping (m : Mat) (p : Piece) : Bool :=
  match p.cells with
  | some cells => cells.any (fun c => !on_matrix c || (m.cell_at c).isSome)
  | none => true

/-- Source `enum MoveKind` from `engine/mod.rs`. -/
inductive MoveKind where
  | Left | Right
  deriving DecidableEq, Repr

/-- Source `MoveKind::offset` from `engine/mod.rs`. -/
def MoveKind.offset : MoveKind → Offset
  | MoveKind.Left => (-1, 0)
  | MoveKind.Right => (1, 0)

/-- Source `struct Engine` from `engine/mod.rs`. The `ThreadRng` field is not
part of the embedded state: the only operation that uses it,
`refill_bag`, is modelled below with its shuffle abstracted as an explicit
parameter. -/
structure Engine where
  matrix : Mat
  bag : List Kind
  cursor : Option Piece
  deriving DecidableEq, Repr

/-- Source `Engine::new` from `engine/mod.rs` (minus the rng field). -/
def Engine.new : Engine := { matrix := Mat.blank, bag := [], cursor := none }

/-- Source `Engine::refill_bag` from `engine/mod.rs`, acting on the bag:
`self.bag.extend_from_slice(&PieceKind::ALL)` then
`self.bag.shuffle(&mut self.rng)`. The shuffle performed by the external
`rand` crate is abstracted as the parameter `shuffle`; its contract — it
permutes its input — is a hypothesis of the theorems about this
function. -/
def refill_bag (shuffle : List Kind → List Kind) (bag : List Kind) : List Kind :=
  shuffle (bag ++ Kind.ALL)

/-- Source `Engine::move_cursor` from `engine/mod.rs`. The Rust method mutates
`self` and returns `Result<(), ()>`; here the success flag is paired with
the resulting engine state (on failure the state is returned unchanged,
as in the source, which performs no mutation on the `Err` path). -/
def Engine.move_cursor (e : Engine) (kind : MoveKind) : Bool × Engine :=
  match e.cursor with
  | some cursor =>
    let new_cursor := cursor.moved_by kind.offset
    if e.matrix.is_clipping new_cursor then (false, e)
    else (true, { e with cursor := some new_cursor })
  | none => (true, e)

/-- Source `Engine::ticked_down_cursor` from `engine/mod.rs`: the cursor moved
one row down, provided it exists and the moved piece is not clipping. -/
def Engine.ticked_down_cursor (e : Engine) : Option Piece :=
  match e.cursor with
  | some cursor =>
    let new_cursor := cursor.moved_by (0, -1)
    if e.matrix.is_clipping new_cursor then none else some new_cursor
  | none => none

/-- Source `Engine::tick_down` from `engine/mod.rs`:
`self.cursor = Some(self.ticked_down_cursor().unwrap())`. The `unwrap`
panic is embedded as `none`. -/
def Engine.tick_down (e : Engine) : Option Engine :=
  (e.ticked_down_cursor).map (fun c => { e with cursor := some c })

/-- Source `Engine::cusor_has_hit_bottom` from `engine/mod.rs` (the source spells
the name this way): a cursor exists and ticking it down is impossible. -/
def Engine.cusor_has_hit_bottom (e : Engine) : Bool :=
  e.cursor.isSome && e.ticked_down_cursor.isNone

/-- The matrix writes of `Engine::place_cursor`'s loop:
`self.matrix[coord] = Some(cursor.kind.color())` for each projected
cell. -/
def writeCells (m : Mat) (cells : List Coordinate) (col : Color) : Mat :=
  cells.foldl (fun m c => m.set (indexing c) (some col)) m

/-- Source `Engine::place_cursor` from `engine/mod.rs`. The `expect` on a missing
cursor and the `unwrap` on unprojectable cells are embedded as `none`;
the `debug_assert!(is_placeable)` is compiled out in release builds and
accordingly appears here only as a hypothesis of the theorems that rely
on it. -/
def Engine.place_cursor (e : Engine) : Option Engine :=
  match e.cursor with
  | none => none
  | some cursor =>
    match cursor.cells with
    | none => none
    | some cells =>
      some { e with matrix := writeCells e.matrix cells cursor.kind.color,
                    cursor := none }

/-- One iteration of `Engine::hard_drop`'s loop at the piece level: the
piece moved one row down, provided the move is not clipping (this is
`ticked_down_cursor` with the cursor forced present). -/
def tickedDownPiece (m : Mat) (p : Piece) : Option Piece :=
  let q := p.moved_by (0, -1)
  if m.is_clipping q then none else some q

/-- The `while let` loop of `Engine::hard_drop`, written with explicit
fuel so that it is structurally recursive; `dropLoop` below supplies
enough fuel, and the termination theorems prove the fuel suffices. -/
def dropGo (m : Mat) : Nat → Piece → Piece
  | 0, p => p
  | n + 1, p =>
    match tickedDownPiece m p with
    | none => p
    | some p' => dropGo m n p'

/-- The full descent of `Engine::hard_drop`'s loop: starting from `p`,
tick the piece down until it would clip. `(p.position.2 + 4).toNat` fuel
is enough because a piece whose anchor has sunk below `y = -3` can no
longer project its cells (see `cells_some_position_le`). -/
def dropLoop (m : Mat) (p : Piece) : Piece :=
  dropGo m (p.position.2 + 4).toNat p

/-- Source `Engine::hard_drop` from `engine/mod.rs`: run the descent loop, then
`place_cursor` (whose missing-cursor panic is embedded as `none`). -/
def Engine.hard_drop (e : Engine) : Option Engine :=
  match e.cursor with
  | none => Engine.place_cursor e
  | some cursor =>
    Engine.place_cursor { e with cursor := some (dropLoop e.matrix cursor) }

/-- Source `GridIncrement::grid_incd for Coordinate` from `engine/mod.rs`:
advance x, wrap at `WIDTH`, carrying into y. -/
def grid_incd (c : Coordinate) : Coordinate :=
  let x := (c.1 + 1) % WIDTH
  if x = 0 then (x, c.2 + 1) else (x, c.2)

/-- The unfolding of `CellIter::next` from `engine/mod.rs`: pair each
stored cell with a running coordinate advanced by `grid_incd`. -/
def iterFrom (pos : Coordinate) : List (Option Color) → List (Coordinate × Option Color)
  | [] => []
  | cell :: cells => (pos, cell) :: iterFrom (grid_incd pos) cells

/-- Source `Engine::cells` from `engine/mod.rs`: iterate the whole matrix
starting at the origin. -/
def Engine.cells (e : Engine) : List (Coordinate × Option Color) :=
  iterFrom (0, 0) e.matrix

/-! ### Helper lemmas -/

lemma castCell_eq_none_iff (o : Offset) :
    castCell o = none ↔ o.1 < 0 ∨ o.2 < 0 ∨ (WIDTH : Int) ≤ o.1 := by
  unfold castCell valid_coord
  split_ifs with h1 h2 <;> simp_all <;> omega

lemma castCell_eq_some (o : Offset) (c : Coordinate) (h : castCell o = some c) :
    c = (o.1.toNat, o.2.toNat) := by
  unfold castCell at h
  split_ifs at h <;> simp_all

lemma castAll_eq_none_iff (os : List Offset) :
    castAll os = none ↔ ∃ o ∈ os, castCell o = none := by
  induction os with
  | nil => simp [castAll]
  | cons o t ih =>
    simp only [castAll]
    cases h : castCell o with
    | none => simp [h]
    | some c =>
      cases ht : castAll t with
      | none => simp [h, ht, ih.mp ht]
      | some cs =>
        simp only [Option.map_some]
        constructor
        · intro hcontra; exact absurd hcontra (by simp)
        · rintro ⟨o', ho', hnone⟩
          rcases List.mem_cons.mp ho' with rfl | hmem
          · exact absurd h (by simp [hnone])
          · have := ih.mpr ⟨o', hmem, hnone⟩
            simp [this] at ht

lemma castAll_eq_some (os : List Offset) (cs : List Coordinate)
    (h : castAll os = some cs) :
    cs = os.map (fun o => (o.1.toNat, o.2.toNat)) := by
  induction os generalizing cs with
  | nil => simp [castAll] at h; simp [h]
  | cons o t ih =>
    simp only [castAll] at h
    cases hc : castCell o with
    | none => simp [hc] at h
    | some c =>
      simp only [hc] at h
      cases ht : castAll t with
      | none => simp [ht] at h
      | some cs' =>
        rw [ht] at h
        have hcs : c :: cs' = cs := by simpa using h
        rw [← hcs]
        simp [castCell_eq_some o c hc, ih cs' ht]

lemma kind_cells_length (k : Kind) : k.cells.length = 4 := by
  cases k <;> rfl

/-- After rotation and pivot correction, every local offset of every piece
lies inside the square `[0, 3] × [0, 3]` (checked over all 28 kind and
rotation combinations; the rotator never inspects the position). -/
lemma rotated_offset_bounds_aux (k : Kind) (r : Rotation) :
    ∀ o ∈ k.cells.map (Piece.rotator ⟨k, (0, 0), r⟩),
      0 ≤ o.1 ∧ o.1 ≤ 3 ∧ 0 ≤ o.2 ∧ o.2 ≤ 3 := by
  cases k <;> cases r <;> decide

lemma rotated_offset_bounds (p : Piece) :
    ∀ o ∈ p.kind.cells.map p.rotator,
      0 ≤ o.1 ∧ o.1 ≤ 3 ∧ 0 ≤ o.2 ∧ o.2 ≤ 3 := by
  obtain ⟨k, pos, r⟩ := p
  exact rotated_offset_bounds_aux k r

/-- A piece whose cells project successfully has its anchor no lower than
`y = -3`: some rotated local offset has `0 ≤ y ≤ 3` and the projected
world offset must be nonnegative. -/
lemma cells_some_position_le (p : Piece) (cs : List Coordinate)
    (h : p.cells = some cs) : -3 ≤ p.position.2 := by
  have hne : p.kind.cells.map p.rotator ≠ [] := by
    intro hcontra
    have := kind_cells_length p.kind
    have : (p.kind.cells.map p.rotator).length = 4 := by simp [this]
    simp [hcontra] at this
  obtain ⟨o0, t, hcons⟩ := List.exists_cons_of_ne_nil hne
  have hmem : o0 ∈ p.kind.cells.map p.rotator := by simp [hcons]
  have hb := rotated_offset_bounds p o0 hmem
  have hw : p.worldOffsets = (o0 + p.position) :: t.map p.positioner := by
    unfold Piece.worldOffsets
    rw [hcons]
    rfl
  unfold Piece.cells at h
  rw [hw] at h
  simp only [castAll] at h
  cases hc : castCell (o0 + p.position) with
  | none => simp [hc] at h
  | some c =>
    have : ¬ (castCell (o0 + p.position) = none) := by simp [hc]
    rw [castCell_eq_none_iff] at this
    push_neg at this
    have h2 := this.2.1
    have : (o0 + p.position).2 = o0.2 + p.position.2 := rfl
    omega

lemma moved_by_position (p : Piece) (o : Offset) :
    (p.moved_by o).position = p.position + o := rfl

lemma moved_by_kind (p : Piece) (o : Offset) : (p.moved_by o).kind = p.kind := rfl

/-- A non-clipping piece always projects its cells. -/
lemma not_clipping_cells_some (m : Mat) (p : Piece)
    (h : m.is_clipping p = false) : ∃ cs, p.cells = some cs := by
  unfold Mat.is_clipping at h
  cases hc : p.cells with
  | none => simp [hc] at h
  | some cs => exact ⟨cs, rfl⟩

lemma tickedDownPiece_eq_some (m : Mat) (p p' : Piece)
    (h : tickedDownPiece m p = some p') :
    p' = p.moved_by (0, -1) ∧ m.is_clipping (p.moved_by (0, -1)) = false := by
  by_cases hcl : m.is_clipping (p.moved_by (0, -1)) = true
  · have hnone : tickedDownPiece m p = none := by
      unfold tickedDownPiece
      simp [hcl]
    rw [hnone] at h
    exact absurd h (by simp)
  · have hfalse : m.is_clipping (p.moved_by (0, -1)) = false := by simpa using hcl
    have hsome : tickedDownPiece m p = some (p.moved_by (0, -1)) := by
      unfold tickedDownPiece
      simp [hfalse]
    rw [hsome] at h
    exact ⟨((Option.some.injEq _ _).mp h).symm, hfalse⟩

/-- Each successful downward tick lowers the anchor by exactly one row and
leaves the anchor at `y ≥ -3`. -/
lemma tickedDownPiece_position (m : Mat) (p p' : Piece)
    (h : tickedDownPiece m p = some p') :
    p'.position.2 = p.position.2 - 1 ∧ -3 ≤ p'.position.2 := by
  obtain ⟨rfl, hcl⟩ := tickedDownPiece_eq_some m p _ h
  obtain ⟨cs, hcs⟩ := not_clipping_cells_some m _ hcl
  have hle := cells_some_position_le _ cs hcs
  have hpos : (p.moved_by (0, -1)).position.2 = p.position.2 - 1 := rfl
  exact ⟨hpos, hle⟩

lemma tickedDownPiece_kind (m : Mat) (p p' : Piece)
    (h : tickedDownPiece m p = some p') : p'.kind = p.kind := by
  obtain ⟨rfl, -⟩ := tickedDownPiece_eq_some m p _ h
  rfl

/-- With fuel at least `(y + 3).toNat`, the descent loop reaches a piece
that can no longer tick down. -/
lemma dropGo_fixpoint (m : Mat) :
    ∀ (n : Nat) (p : Piece), (p.position.2 + 3).toNat ≤ n →
      tickedDownPiece m (dropGo m n p) = none := by
  intro n
  induction n with
  | zero =>
    intro p hp
    cases h : tickedDownPiece m p with
    | none => simpa [dropGo] using h
    | some p' =>
      have := (tickedDownPiece_position m p p' h).1
      have := (tickedDownPiece_position m p p' h).2
      omega
  | succ n ih =>
    intro p hp
    cases h : tickedDownPiece m p with
    | none => simpa [dropGo, h] using h
    | some p' =>
      have hpos := tickedDownPiece_position m p p' h
      have : (p'.position.2 + 3).toNat ≤ n := by omega
      simpa [dropGo, h] using ih p' this

lemma dropLoop_fixpoint (m : Mat) (p : Piece) :
    tickedDownPiece m (dropLoop m p) = none := by
  apply dropGo_fixpoint
  omega

lemma dropGo_kind (m : Mat) : ∀ (n : Nat) (p : Piece), (dropGo m n p).kind = p.kind := by
  intro n
  induction n with
  | zero => intro p; rfl
  | succ n ih =>
    intro p
    cases h : tickedDownPiece m p with
    | none => simp [dropGo, h]
    | some p' => simp [dropGo, h, ih p', tickedDownPiece_kind m p p' h]

lemma dropLoop_kind (m : Mat) (p : Piece) : (dropLoop m p).kind = p.kind :=
  dropGo_kind m _ p

lemma getD_set_self (l : Mat) (i : Nat) (v : Option Color) (h : i < l.length) :
    (l.set i v).getD i none = v := by
  induction l generalizing i with
  | nil => simp at h
  | cons a t ih =>
    cases i with
    | zero => simp
    | succ n => simpa using ih n (by simpa using h)

lemma getD_set_ne (l : Mat) (i j : Nat) (v : Option Color) (hne : i ≠ j) :
    (l.set i v).getD j none = l.getD j none := by
  induction l generalizing i j with
  | nil => simp
  | cons a t ih =>
    cases i with
    | zero =>
      cases j with
      | zero => exact absurd rfl hne
      | succ m => simp
    | succ n =>
      cases j with
      | zero => simp
      | succ m => simpa using ih n m (by omega)

lemma writeCells_cons (m : Mat) (c : Coordinate) (t : List Coordinate) (col : Color) :
    writeCells m (c :: t) col = writeCells (m.set (indexing c) (some col)) t col := rfl

lemma writeCells_length (cs : List Coordinate) (m : Mat) (col : Color) :
    (writeCells m cs col).length = m.length := by
  induction cs generalizing m with
  | nil => rfl
  | cons c t ih => rw [writeCells_cons, ih, List.length_set]

/-- A cell already holding the color being written keeps it through all
remaining writes. -/
lemma writeCells_stable (cs : List Coordinate) (m : Mat) (c : Coordinate)
    (col : Color) (h : m.cell_at c = some col) :
    (writeCells m cs col).cell_at c = some col := by
  induction cs generalizing m with
  | nil => exact h
  | cons c0 t ih =>
    rw [writeCells_cons]
    apply ih
    unfold Mat.cell_at at h ⊢
    by_cases he : indexing c0 = indexing c
    · rw [he]
      by_cases hlt : indexing c < m.length
      · exact getD_set_self m _ _ hlt
      · rw [List.set_eq_of_length_le (by omega)]
        exact h
    · rw [getD_set_ne m _ _ _ he]
      exact h

/-- Every projected cell of the locked piece ends up with the piece's
color. -/
lemma writeCells_mem (cs : List Coordinate) (m : Mat) (col : Color)
    (c : Coordinate) (hc : c ∈ cs) (hlen : indexing c < m.length) :
    (writeCells m cs col).cell_at c = some col := by
  induction cs generalizing m with
  | nil => cases hc
  | cons c0 t ih =>
    rw [writeCells_cons]
    rcases List.mem_cons.mp hc with rfl | hmem
    · exact writeCells_stable t _ c col (getD_set_self m _ _ hlen)
    · exact ih _ hmem (by rw [List.length_set]; exact hlen)

/-- Array positions not written by the lock keep their previous value. -/
lemma writeCells_other (cs : List Coordinate) (m : Mat) (col : Color)
    (i : Nat) (hi : i ∉ cs.map indexing) :
    (writeCells m cs col).getD i none = m.getD i none := by
  induction cs generalizing m with
  | nil => rfl
  | cons c0 t ih =>
    rw [writeCells_cons]
    have hne : indexing c0 ≠ i := by
      intro hcontra
      exact hi (by simp [← hcontra])
    rw [ih _ (fun hmem => hi (by simp at hmem ⊢; exact Or.inr hmem)),
      getD_set_ne m _ _ _ hne]

/-- Boolean De Morgan identity behind `is_clipping` versus
`is_placeable`. -/
lemma any_or_eq_not_all (cs : List Coordinate) (f g : Coordinate → Bool) :
    cs.any (fun c => !f c || g c) = !cs.all (fun c => f c && !g c) := by
  induction cs with
  | nil => rfl
  | cons a t ih =>
    simp [List.any_cons, List.all_cons, ih, Bool.not_and, Bool.not_not]

lemma is_clipping_eq_not_is_placeable (m : Mat) (p : Piece) :
    m.is_clipping p = !m.is_placeable p := by
  unfold Mat.is_clipping Mat.is_placeable
  cases h : p.cells with
  | none => rfl
  | some cs =>
    have hpt : (fun c => on_matrix c && (m.cell_at c).isNone)
        = (fun c => on_matrix c && !(m.cell_at c).isSome) := by
      funext c
      cases m.cell_at c <;> rfl
    rw [hpt]
    exact any_or_eq_not_all cs (fun c => on_matrix c) (fun c => (m.cell_at c).isSome)

/-- The embedded `grid_incd` follows the row-major successor on encoded indices. -/
lemma grid_incd_eq (n : Nat) :
    grid_incd (n % WIDTH, n / WIDTH) = ((n + 1) % WIDTH, (n + 1) / WIDTH) := by
  simp only [grid_incd, WIDTH]
  split_ifs with h <;> simp only [Prod.mk.injEq] <;> constructor <;> omega

lemma iterFrom_map_snd (l : List (Option Color)) :
    ∀ pos, (iterFrom pos l).map Prod.snd = l := by
  induction l with
  | nil => intro pos; rfl
  | cons c t ih => intro pos; simp [iterFrom, ih]

lemma iterFrom_length (l : List (Option Color)) :
    ∀ pos, (iterFrom pos l).length = l.length := by
  induction l with
  | nil => intro pos; rfl
  | cons c t ih => intro pos; simp [iterFrom, ih]

lemma iterFrom_map_fst (l : List (Option Color)) :
    ∀ n : Nat, (iterFrom (n % WIDTH, n / WIDTH) l).map Prod.fst
      = (List.range' n l.length).map (fun i => (i % WIDTH, i / WIDTH)) := by
  induction l with
  | nil => intro n; rfl
  | cons c t ih =>
    intro n
    rw [show iterFrom (n % WIDTH, n / WIDTH) (c :: t)
        = ((n % WIDTH, n / WIDTH), c) :: iterFrom (grid_incd (n % WIDTH, n / WIDTH)) t
      from rfl]
    rw [grid_incd_eq n]
    simp only [List.map_cons, List.length_cons, List.range'_succ, ih (n + 1)]

/-! ### Claim theorems -/

/-- C1: `Piece::cells` applies to each canonical offset the fixed rotation
rule of the piece's rotation state (N identity, S negating both axes,
E mapping (x,y) to (y,-x), W mapping (x,y) to (-y,x)); rotation is a no-op
for the O kind and every other kind adds the pivot-correction offset
`intrinsic_offset * (grid_size - 1)`; the piece's position is then added;
the S piece at (5,6) rotated W yields {(6,6),(6,7),(5,7),(5,8)} and
rotated S yields {(7,7),(6,7),(6,6),(5,6)}. -/
theorem c1_piece_rotation (p : Piece) :
    (∀ (r : Rotation) (o : Offset), mulRot o r = specRotate r o) ∧
    (p.kind = Kind.O → ∀ cell, p.rotator cell = cell) ∧
    (p.kind ≠ Kind.O → ∀ cell,
      p.rotator cell = specRotate p.rotation cell
        + mulScalar p.rotation.intrinsic_offset (p.kind.grid_size - 1)) ∧
    p.worldOffsets = (p.kind.cells.map p.rotator).map (fun o => o + p.position) ∧
    Piece.cells ⟨Kind.S, (5, 6), Rotation.W⟩ = some [(6, 6), (6, 7), (5, 7), (5, 8)] ∧
    Piece.cells ⟨Kind.S, (5, 6), Rotation.S⟩ = some [(7, 7), (6, 7), (6, 6), (5, 6)] := by
  obtain ⟨k, pos, r⟩ := p
  refine ⟨?_, ?_, ?_, rfl, by decide, by decide⟩
  · intro r' o
    cases r' <;> rfl
  · intro h cell
    cases k
    · rfl
    all_goals simp at h
  · intro h cell
    cases k
    · exact absurd rfl h
    all_goals cases r <;> rfl

/-- C1 witness: the rotation rule instantiated at the S piece of the
spec's example. -/
theorem c1_piece_rotation_witness :
    Kind.S ≠ Kind.O ∧
    Piece.rotator ⟨Kind.S, (5, 6), Rotation.W⟩ (0, 1)
      = specRotate Rotation.W (0, 1)
        + mulScalar (Rotation.intrinsic_offset Rotation.W) (Kind.grid_size Kind.S - 1) :=
  ⟨by decide,
    (c1_piece_rotation ⟨Kind.S, (5, 6), Rotation.W⟩).2.2.1 (by decide) (0, 1)⟩

/-- C2 counterexample: the claim asserts a piece and grid exist on which
`is_clipping` differs from the negation of `is_placeable`; in fact the two
predicates are exact complements on every input. -/
theorem c2_not_complements_counterexample :
    ¬ ∃ (m : Mat) (p : Piece), m.is_clipping p ≠ (!m.is_placeable p) := by
  rintro ⟨m, p, h⟩
  exact h (is_clipping_eq_not_is_placeable m p)

/-- C2 amended: `is_clipping` is everywhere the exact Boolean complement
of `is_placeable`; on a geometrically unprojectable piece both agree
(clipping true, placeable false). -/
theorem c2_complements (m : Mat) (p : Piece) :
    m.is_clipping p = (!m.is_placeable p) ∧
    (p.cells = none → m.is_clipping p = true ∧ m.is_placeable p = false) := by
  refine ⟨is_clipping_eq_not_is_placeable m p, fun h => ⟨?_, ?_⟩⟩
  · unfold Mat.is_clipping
    rw [h]
  · unfold Mat.is_placeable
    rw [h]

/-- C2 witness: a piece pushed off the left edge is unprojectable, and the
two predicates agree on it. -/
theorem c2_complements_witness :
    Piece.cells ⟨Kind.O, (-5, 0), Rotation.N⟩ = none ∧
    Mat.is_clipping Mat.blank ⟨Kind.O, (-5, 0), Rotation.N⟩ = true ∧
    Mat.is_placeable Mat.blank ⟨Kind.O, (-5, 0), Rotation.N⟩ = false :=
  ⟨by decide,
    ((c2_complements Mat.blank ⟨Kind.O, (-5, 0), Rotation.N⟩).2 (by decide)).1,
    ((c2_complements Mat.blank ⟨Kind.O, (-5, 0), Rotation.N⟩).2 (by decide)).2⟩

/-- C3 counterexample: on an engine without a cursor,
`cusor_has_hit_bottom` is false and yet `tick_down` fails (the source
`unwrap`s a `None`), so "whenever it is false, `tick_down` does not fail"
is not true of every engine state. -/
theorem c3_no_cursor_counterexample :
    Engine.new.cusor_has_hit_bottom = false ∧ Engine.new.tick_down = none := by
  constructor <;> rfl

/-- C3 amended: `cusor_has_hit_bottom` is true iff a cursor exists and the
cursor moved down one row clips; it is a pure query; when it is true,
`tick_down` fails; and on states that do have a cursor it is false exactly
when `tick_down` succeeds and moves the cursor down one row. -/
theorem c3_hit_bottom (e : Engine) :
    (e.cusor_has_hit_bottom = true ↔
      ∃ c, e.cursor = some c ∧ e.matrix.is_clipping (c.moved_by (0, -1)) = true) ∧
    (e.cusor_has_hit_bottom = true → e.tick_down = none) ∧
    (∀ c, e.cursor = some c →
      (e.cusor_has_hit_bottom = false ↔
        e.tick_down = some { e with cursor := some (c.moved_by (0, -1)) })) := by
  cases hcur : e.cursor with
  | none =>
    have h1 : e.cusor_has_hit_bottom = false := by
      unfold Engine.cusor_has_hit_bottom
      simp [hcur]
    refine ⟨?_, ?_, ?_⟩
    · simp [h1, hcur]
    · simp [h1]
    · intro c hc
      exact absurd hc (by simp)
  | some c =>
    have htd : e.ticked_down_cursor
        = if e.matrix.is_clipping (c.moved_by (0, -1)) then none
          else some (c.moved_by (0, -1)) := by
      unfold Engine.ticked_down_cursor
      rw [hcur]
    by_cases hcl : e.matrix.is_clipping (c.moved_by (0, -1)) = true
    · have ht : e.ticked_down_cursor = none := by rw [htd, if_pos hcl]
      have h1 : e.cusor_has_hit_bottom = true := by
        unfold Engine.cusor_has_hit_bottom
        simp [hcur, ht]
      have h2 : e.tick_down = none := by
        unfold Engine.tick_down
        rw [ht]
        rfl
      refine ⟨?_, fun _ => h2, ?_⟩
      · simp only [h1, true_iff]
        exact ⟨c, rfl, hcl⟩
      · intro c' hc'
        injection hc' with hcc
        subst hcc
        simp [h1, h2]
    · have hclf : e.matrix.is_clipping (c.moved_by (0, -1)) = false := by
        simpa using hcl
      have ht : e.ticked_down_cursor = some (c.moved_by (0, -1)) := by
        rw [htd, if_neg (by simp [hclf])]
      have h1 : e.cusor_has_hit_bottom = false := by
        unfold Engine.cusor_has_hit_bottom
        simp [ht]
      have h2 : e.tick_down = some { e with cursor := some (c.moved_by (0, -1)) } := by
        unfold Engine.tick_down
        rw [ht]
        rfl
      refine ⟨?_, ?_, ?_⟩
      · rw [h1]
        simp only [Bool.false_eq_true, false_iff]
        rintro ⟨c', hc', hcl'⟩
        injection hc' with hcc
        subst hcc
        rw [hclf] at hcl'
        cases hcl'
      · simp [h1]
      · intro c' hc'
        injection hc' with hcc
        subst hcc
        simp [h1, h2]

/-- C3 witness: a cursor floating on a blank board has not hit bottom and
`tick_down` moves it down one row. -/
theorem c3_hit_bottom_witness :
    Engine.cusor_has_hit_bottom ⟨Mat.blank, [], some ⟨Kind.O, (4, 5), Rotation.N⟩⟩ = false ∧
    Engine.tick_down ⟨Mat.blank, [], some ⟨Kind.O, (4, 5), Rotation.N⟩⟩
      = some ⟨Mat.blank, [], some (Piece.moved_by ⟨Kind.O, (4, 5), Rotation.N⟩ (0, -1))⟩ := by
  refine ⟨by decide, ?_⟩
  exact ((c3_hit_bottom ⟨Mat.blank, [], some ⟨Kind.O, (4, 5), Rotation.N⟩⟩).2.2
    ⟨Kind.O, (4, 5), Rotation.N⟩ rfl).mp (by decide)

/-- C4: `move_cursor` maps Left to (-1,0) and Right to (1,0); without a
cursor it is a no-op success; with a cursor it fails and changes nothing
when the candidate clips, and otherwise succeeds with the cursor replaced
by the candidate. -/
theorem c4_move_cursor (e : Engine) (k : MoveKind) :
    (MoveKind.offset MoveKind.Left = (-1, 0) ∧ MoveKind.offset MoveKind.Right = (1, 0)) ∧
    (e.cursor = none → e.move_cursor k = (true, e)) ∧
    (∀ c, e.cursor = some c →
      (e.matrix.is_clipping (c.moved_by k.offset) = true →
        e.move_cursor k = (false, e)) ∧
      (e.matrix.is_clipping (c.moved_by k.offset) = false →
        e.move_cursor k = (true, { e with cursor := some (c.moved_by k.offset) }))) := by
  refine ⟨⟨rfl, rfl⟩, ?_, ?_⟩
  · intro h
    unfold Engine.move_cursor
    rw [h]
  · intro c hc
    constructor
    · intro hcl
      unfold Engine.move_cursor
      rw [hc]
      simp [hcl]
    · intro hcl
      unfold Engine.move_cursor
      rw [hc]
      simp [hcl]

/-- C4 witness: with the O piece at the leftmost valid position on a blank
board, moving left fails and the state is unchanged. -/
theorem c4_move_cursor_witness :
    Mat.is_clipping Mat.blank
      (Piece.moved_by ⟨Kind.O, (-1, 5), Rotation.N⟩ (MoveKind.offset MoveKind.Left)) = true ∧
    Engine.move_cursor ⟨Mat.blank, [], some ⟨Kind.O, (-1, 5), Rotation.N⟩⟩ MoveKind.Left
      = (false, ⟨Mat.blank, [], some ⟨Kind.O, (-1, 5), Rotation.N⟩⟩) := by
  refine ⟨by decide, ?_⟩
  exact ((c4_move_cursor ⟨Mat.blank, [], some ⟨Kind.O, (-1, 5), Rotation.N⟩⟩ MoveKind.Left).2.2
    ⟨Kind.O, (-1, 5), Rotation.N⟩ rfl).1 (by decide)

/-- C5: with an active cursor whose resting location is placeable,
`hard_drop` ticks the cursor down one row at a time until the next step
would clip, writes exactly the four cells of the final cursor position
with the piece's color, leaves every other array position unchanged, and
clears the cursor. -/
theorem c5_hard_drop (e : Engine) (c : Piece)
    (hc : e.cursor = some c)
    (hlen : e.matrix.length = SIZE)
    (hp : e.matrix.is_placeable (dropLoop e.matrix c) = true) :
    ∃ cs, Piece.cells (dropLoop e.matrix c) = some cs ∧
      cs.length = 4 ∧
      tickedDownPiece e.matrix (dropLoop e.matrix c) = none ∧
      e.hard_drop = some { matrix := writeCells e.matrix cs c.kind.color,
                           bag := e.bag, cursor := none } ∧
      (∀ cc ∈ cs, (writeCells e.matrix cs c.kind.color).cell_at cc
        = some c.kind.color) ∧
      (∀ i, i ∉ cs.map indexing →
        (writeCells e.matrix cs c.kind.color).getD i none = e.matrix.getD i none) := by
  unfold Mat.is_placeable at hp
  cases hcell : Piece.cells (dropLoop e.matrix c) with
  | none =>
    rw [hcell] at hp
    cases hp
  | some cs =>
    rw [hcell] at hp
    have hall : ∀ cc ∈ cs, on_matrix cc = true ∧ (e.matrix.cell_at cc).isNone = true := by
      intro cc hcc
      have h := (List.all_eq_true.mp hp) cc hcc
      simpa only [Bool.and_eq_true] using h
    have hkind : (dropLoop e.matrix c).kind = c.kind := dropLoop_kind e.matrix c
    have hlen4 : cs.length = 4 := by
      rw [castAll_eq_some _ cs hcell]
      simp [Piece.worldOffsets, kind_cells_length]
    have hdrop : e.hard_drop
        = some { e with matrix := writeCells e.matrix cs c.kind.color,
                        cursor := none } := by
      unfold Engine.hard_drop
      rw [hc]
      unfold Engine.place_cursor
      simp only
      rw [hcell, hkind]
    refine ⟨cs, rfl, hlen4, dropLoop_fixpoint e.matrix c, hdrop, ?_, ?_⟩
    · intro cc hcc
      apply writeCells_mem cs e.matrix c.kind.color cc hcc
      have hon := (hall cc hcc).1
      simp only [on_matrix, Bool.and_eq_true, decide_eq_true_eq] at hon
      have h1 : cc.1 < 10 := by simpa [WIDTH] using hon.1
      have h2 : cc.2 < 20 := by simpa [HEIGHT] using hon.2
      have hidx : indexing cc = cc.2 * 10 + cc.1 := by simp [indexing, WIDTH]
      rw [hlen, hidx]
      simp only [SIZE, WIDTH, HEIGHT]
      omega
    · intro i hi
      exact writeCells_other cs e.matrix c.kind.color i hi

/-- C5 witness: the O piece dropped from (4,2) on a blank board. -/
theorem c5_hard_drop_witness :
    ∃ cs, Piece.cells (dropLoop Mat.blank ⟨Kind.O, (4, 2), Rotation.N⟩) = some cs ∧
      cs.length = 4 ∧
      tickedDownPiece Mat.blank (dropLoop Mat.blank ⟨Kind.O, (4, 2), Rotation.N⟩) = none ∧
      Engine.hard_drop ⟨Mat.blank, [], some ⟨Kind.O, (4, 2), Rotation.N⟩⟩
        = some ⟨writeCells Mat.blank cs (Kind.color Kind.O), [], none⟩ ∧
      (∀ cc ∈ cs, (writeCells Mat.blank cs (Kind.color Kind.O)).cell_at cc
        = some (Kind.color Kind.O)) ∧
      (∀ i, i ∉ cs.map indexing →
        (writeCells Mat.blank cs (Kind.color Kind.O)).getD i none
          = Mat.blank.getD i none) :=
  c5_hard_drop ⟨Mat.blank, [], some ⟨Kind.O, (4, 2), Rotation.N⟩⟩
    ⟨Kind.O, (4, 2), Rotation.N⟩ rfl (by simp [Mat.blank]) (by decide)

/-- C6: `Piece::cells` returns `none` exactly when some world-space offset
has a negative component or an x-component at least WIDTH (the
y-component is never compared with HEIGHT); on success it returns the
translated coordinates themselves. -/
theorem c6_cells_none_iff (p : Piece) :
    (p.cells = none ↔
      ∃ o ∈ p.worldOffsets, o.1 < 0 ∨ o.2 < 0 ∨ (WIDTH : Int) ≤ o.1) ∧
    (∀ cs, p.cells = some cs →
      cs = p.worldOffsets.map (fun o => (o.1.toNat, o.2.toNat))) := by
  constructor
  · unfold Piece.cells
    rw [castAll_eq_none_iff]
    constructor
    · rintro ⟨o, ho, hnone⟩
      exact ⟨o, ho, (castCell_eq_none_iff o).mp hnone⟩
    · rintro ⟨o, ho, hcond⟩
      exact ⟨o, ho, (castCell_eq_none_iff o).mpr hcond⟩
  · intro cs h
    exact castAll_eq_some _ cs h

/-- C6 witness: a piece whose cells sit far above HEIGHT still projects
(no y-versus-HEIGHT check), and its coordinates are the casts of its world
offsets. -/
theorem c6_cells_witness :
    Piece.cells ⟨Kind.O, (0, 25), Rotation.N⟩ = some [(1, 26), (1, 27), (2, 27), (2, 26)] ∧
    [((1 : Nat), (26 : Nat)), (1, 27), (2, 27), (2, 26)]
      = (Piece.worldOffsets ⟨Kind.O, (0, 25), Rotation.N⟩).map
          (fun o => (o.1.toNat, o.2.toNat)) :=
  ⟨by decide,
    (c6_cells_none_iff ⟨Kind.O, (0, 25), Rotation.N⟩).2 _ (by decide)⟩

/-- C7: `is_placeable` holds iff the cells project, are in bounds on both
axes, and are all empty; an unprojectable piece is never placeable. -/
theorem c7_placeable_iff (m : Mat) (p : Piece) :
    (m.is_placeable p = true ↔
      ∃ cs, p.cells = some cs ∧
        ∀ c ∈ cs, c.1 < WIDTH ∧ c.2 < HEIGHT ∧ m.cell_at c = none) ∧
    (p.cells = none → m.is_placeable p = false) := by
  constructor
  · unfold Mat.is_placeable
    cases h : p.cells with
    | none => simp
    | some cs =>
      simp only [List.all_eq_true, Bool.and_eq_true, on_matrix, decide_eq_true_eq,
        Option.isNone_iff_eq_none, Option.some.injEq]
      constructor
      · intro hall
        refine ⟨cs, rfl, fun c hc => ?_⟩
        obtain ⟨⟨h1, h2⟩, h3⟩ := hall c hc
        exact ⟨h1, h2, h3⟩
      · rintro ⟨cs', hcs', hall⟩
        subst hcs'
        intro c hc
        obtain ⟨h1, h2, h3⟩ := hall c hc
        exact ⟨⟨h1, h2⟩, h3⟩
  · intro h
    unfold Mat.is_placeable
    rw [h]

/-- C7 witness: a resting O piece is placeable on a blank board, and the
unprojectable O piece off the left edge is not. -/
theorem c7_placeable_witness :
    Mat.is_placeable Mat.blank ⟨Kind.O, (4, 0), Rotation.N⟩ = true ∧
    Piece.cells ⟨Kind.O, (-7, 0), Rotation.N⟩ = none ∧
    Mat.is_placeable Mat.blank ⟨Kind.O, (-7, 0), Rotation.N⟩ = false :=
  ⟨by decide, by decide,
    (c7_placeable_iff Mat.blank ⟨Kind.O, (-7, 0), Rotation.N⟩).2 (by decide)⟩

/-- C8: refilling an empty bag produces a permutation of the seven kinds
{O,I,T,L,J,S,Z} — none missing, none duplicated — whatever permutation the
(injected) shuffle applies. -/
theorem c8_refill (shuffle : List Kind → List Kind)
    (hsh : ∀ l, (shuffle l).Perm l) (bag : List Kind) (hbag : bag = []) :
    (refill_bag shuffle bag).Perm Kind.ALL ∧
    (refill_bag shuffle bag).Nodup ∧
    ∀ k : Kind, (refill_bag shuffle bag).count k = 1 := by
  subst hbag
  have hperm : (refill_bag shuffle []).Perm Kind.ALL := by
    unfold refill_bag
    simpa using hsh Kind.ALL
  refine ⟨hperm, hperm.nodup_iff.mpr (by decide), fun k => ?_⟩
  rw [hperm.count_eq]
  cases k <;> decide

/-- C8 witness: the identity shuffle. -/
theorem c8_refill_witness :
    (refill_bag id []).Perm Kind.ALL ∧ (refill_bag id []).count Kind.O = 1 :=
  ⟨(c8_refill id (fun l => List.Perm.refl l) [] rfl).1,
    (c8_refill id (fun l => List.Perm.refl l) [] rfl).2.2 Kind.O⟩

/-- C9: `cells()` yields exactly WIDTH×HEIGHT pairs, visiting every stored
cell exactly once in row-major order starting at (0,0) and advancing x
before y; on a blank grid every yielded value is empty. -/
theorem c9_cells_iteration (e : Engine) (hlen : e.matrix.length = SIZE) :
    e.cells.length = SIZE ∧
    e.cells.map Prod.fst = (List.range SIZE).map (fun i => (i % WIDTH, i / WIDTH)) ∧
    e.cells.map Prod.snd = e.matrix ∧
    (∀ pr ∈ Engine.new.cells, pr.2 = none) := by
  refine ⟨?_, ?_, iterFrom_map_snd e.matrix _, ?_⟩
  · unfold Engine.cells
    rw [iterFrom_length, hlen]
  · unfold Engine.cells
    have h := iterFrom_map_fst e.matrix 0
    rw [show (((0 : Nat) % WIDTH, (0 : Nat) / WIDTH) : Coordinate)
      = ((0 : Nat), (0 : Nat)) from rfl] at h
    rw [h, hlen, List.range_eq_range']
  · intro pr hpr
    have hmem : pr.2 ∈ (Engine.new.cells).map Prod.snd := List.mem_map_of_mem _ hpr
    rw [show Engine.new.cells = iterFrom (0, 0) Engine.new.matrix from rfl,
      iterFrom_map_snd] at hmem
    rw [show Engine.new.matrix = List.replicate SIZE none from rfl] at hmem
    exact List.eq_of_mem_replicate hmem

/-- C9 witness: the blank engine's iteration. -/
theorem c9_cells_witness :
    Engine.new.cells.length = SIZE ∧
    Engine.new.cells.map Prod.fst
      = (List.range SIZE).map (fun i => (i % WIDTH, i / WIDTH)) :=
  ⟨(c9_cells_iteration Engine.new (by simp [Engine.new, Mat.blank])).1,
    (c9_cells_iteration Engine.new (by simp [Engine.new, Mat.blank])).2.1⟩

/-- C10: the descent loop of `hard_drop` terminates: its result can no
longer tick down, each successful tick lowers the anchor's y by exactly
one, a projectable piece has its anchor at `y ≥ -3` (so the y strictly
decreases into a region where projection must fail), and an unprojectable
piece is clipping. -/
theorem c10_drop_terminates (m : Mat) (p : Piece) :
    tickedDownPiece m (dropLoop m p) = none ∧
    (∀ p', tickedDownPiece m p = some p' → p'.position.2 = p.position.2 - 1) ∧
    (∀ cs, p.cells = some cs → -3 ≤ p.position.2) ∧
    (p.cells = none → m.is_clipping p = true) := by
  refine ⟨dropLoop_fixpoint m p, ?_, ?_, ?_⟩
  · intro p' h
    exact (tickedDownPiece_position m p p' h).1
  · intro cs h
    exact cells_some_position_le p cs h
  · intro h
    unfold Mat.is_clipping
    rw [h]

/-- C10 witness: the O piece at (4,2) on a blank board. -/
theorem c10_drop_terminates_witness :
    tickedDownPiece Mat.blank (dropLoop Mat.blank ⟨Kind.O, (4, 2), Rotation.N⟩) = none ∧
    (Piece.position ⟨Kind.O, (4, 1), Rotation.N⟩).2
      = (Piece.position ⟨Kind.O, (4, 2), Rotation.N⟩).2 - 1 :=
  ⟨(c10_drop_terminates Mat.blank ⟨Kind.O, (4, 2), Rotation.N⟩).1,
    (c10_drop_terminates Mat.blank ⟨Kind.O, (4, 2), Rotation.N⟩).2.1
      ⟨Kind.O, (4, 1), Rotation.N⟩ (by decide)⟩

end TetrisRs
